import Mathlib

/-!
# Pipeline core of `agency` (`core/core.go`)

A shallow embedding of the Go package `core`: the message variants, the `Pipe`
function type with `Then` and `Execute`, and `TextMessage.Bind`.

Modelling choices.

* A Go interface value may be `nil`; a returned `Message` is `Option Message` and a
  returned `error` is `Option GoError`, with `none` standing for `nil`.
* A Go `Pipe` is a function that may have side effects.  The embedding passes an explicit
  state `σ` (everything a step function can read or write besides its arguments), so a pipe
  maps a context, an input message and a state to a `(Message, error)` pair and a new state.
* Go strings are modelled by `String` (sequences of code points, i.e. valid UTF-8 text), and
  `[]byte` by `List UInt8`.  Where the sharing of a slice matters, a second view keeps slice
  headers and the memory they point into apart (`Slice`, `Heap`, `StoredMessage`).
-/

namespace Agency

/-! ## Values of the Go runtime and standard library used by `core` -/

/-- Go `error` values: the two errors of package `context` and any other error, told apart
by its text.  The `nil` error is `none : Option GoError`. -/
inductive GoError where
  | canceled
  | deadlineExceeded
  | other (text : String)
  deriving DecidableEq, Repr

/-- Go `context.Context` as the core sees it: an identity (two contexts with different
`ident` are different contexts) and the value `ctx.Err()` has on entry, `none` while the
context is neither cancelled nor past its deadline. -/
structure Context where
  ident : Nat
  Err : Option GoError
  deriving DecidableEq, Repr

/-! ## Messages (`core.go`, lines 27-91) -/

/-- Go `type Role string`. -/
structure Role where
  name : String
  deriving DecidableEq, Repr

/-- Constant `UserRole Role = "user"`. -/
def UserRole : Role := ⟨"user"⟩

/-- Constant `SystemRole Role = "system"`. -/
def SystemRole : Role := ⟨"system"⟩

/-- Constant `AssistantRole Role = "assistant"`. -/
def AssistantRole : Role := ⟨"assistant"⟩

/-- Go `type TextMessage struct { Role Role; Content string }`. -/
structure TextMessage where
  Role : Role
  Content : String
  deriving DecidableEq, Repr

/-- Go `type ImageMessage struct { bb []byte }`. -/
structure ImageMessage where
  bb : List UInt8
  deriving DecidableEq, Repr

/-- Go `type SpeechMessage struct { bb []byte }`. -/
structure SpeechMessage where
  bb : List UInt8
  deriving DecidableEq, Repr

/-- The `[]byte(s)` conversion of a Go string: its UTF-8 encoding. -/
def stringBytes (s : String) : List UInt8 :=
  s.data.flatMap String.utf8EncodeChar

/-- Method `func (t TextMessage) Bytes() []byte`. -/
def TextMessage.Bytes (t : TextMessage) : List UInt8 :=
  stringBytes t.Content

/-- Method `func (i ImageMessage) Bytes() []byte`. -/
def ImageMessage.Bytes (i : ImageMessage) : List UInt8 :=
  i.bb

/-- Method `func (s SpeechMessage) Bytes() []byte`. -/
def SpeechMessage.Bytes (s : SpeechMessage) : List UInt8 :=
  s.bb

/-- Function `NewImageMessage(bb []byte) ImageMessage`. -/
def NewImageMessage (bb : List UInt8) : ImageMessage :=
  ⟨bb⟩

/-- Function `NewSpeechMessage(bb []byte) SpeechMessage`. -/
def NewSpeechMessage (bb : List UInt8) : SpeechMessage :=
  { bb := bb }

/-- Function `NewUserMessage(content string) TextMessage`. -/
def NewUserMessage (content : String) : TextMessage :=
  { Role := UserRole, Content := content }

/-- Function `NewSystemMessage(content string) TextMessage`. -/
def NewSystemMessage (content : String) : TextMessage :=
  { Role := SystemRole, Content := content }

/-- Go `type Message interface { Bytes() []byte }`, as the sum of the three types of the
package that implement it.  The `nil` interface value is `none : Option Message`. -/
inductive Message where
  | text (t : TextMessage)
  | image (i : ImageMessage)
  | speech (s : SpeechMessage)
  deriving DecidableEq, Repr

/-- Interface method `Bytes`, dispatched on the dynamic type. -/
def Message.Bytes : Message → List UInt8
  | .text t => t.Bytes
  | .image i => i.Bytes
  | .speech s => s.Bytes

/-! ## Pipes (`core.go`, lines 8-25) -/

/-- Go `type Pipe func(context.Context, Message) (Message, error)`, with the state the
function body may read and write made explicit. -/
abbrev Pipe (σ : Type) : Type :=
  Context → Option Message → σ → (Option Message × Option GoError) × σ

/-- Method `func (p Pipe) Then(next Pipe) Pipe`:
```go
return func(ctx context.Context, bb Message) (Message, error) {
    bb, err := p(ctx, bb)
    if err != nil {
        return nil, err
    }
    return next(ctx, bb)
}
``` -/
def Pipe.Then {σ : Type} (p next : Pipe σ) : Pipe σ :=
  fun ctx bb s =>
    match p ctx bb s with
    | ((bb', err), s') =>
      match err with
      | some e => ((none, some e), s')
      | none => next ctx bb' s'

/-- Method `func (p Pipe) Execute(ctx context.Context, bb Message) (Message, error)`:
`return p(ctx, bb)`. -/
def Pipe.Execute {σ : Type} (p : Pipe σ) (ctx : Context) (bb : Option Message) (s : σ) :
    (Option Message × Option GoError) × σ :=
  p ctx bb s

/-! ## `fmt.Sprintf` and `TextMessage.Bind` (`core.go`, lines 41-47) -/

/-- An operand passed through a variadic `args ...any` parameter.  The embedding covers
the two dynamic types the specification speaks of, Go `string` and Go `int`. -/
inductive GoValue where
  | str (s : String)
  | int (n : Int)
  deriving DecidableEq, Repr

/-- The text of `reflect.TypeOf(arg).String()`. -/
def GoValue.typeString : GoValue → List Char
  | .str _ => "string".data
  | .int _ => "int".data

/-- Decimal text of a signed integer, as `fmtInteger` writes it in base 10 without flags. -/
def fmtDecimal : Int → List Char
  | .ofNat m => (Nat.repr m).data
  | .negSucc m => '-' :: (Nat.repr (m + 1)).data

/-- The operand under verb `v`: the string itself, or the integer in decimal. -/
def GoValue.plain : GoValue → List Char
  | .str s => s.data
  | .int n => fmtDecimal n

/-- The `badVerb` of package `fmt`: `%!verb(type=value)`. -/
def badVerb (verb : Char) (arg : GoValue) : List Char :=
  '%' :: '!' :: verb :: '(' :: (arg.typeString ++ '=' :: (arg.plain ++ [')']))

/-- The `printArg` of package `fmt` for a non-nil operand: `%T` prints the type; a string
takes `%s` and `%v`, an integer takes `%d` and `%v`; any other verb is a bad verb. -/
def printArg (arg : GoValue) (verb : Char) : List Char :=
  if verb = 'T' then arg.typeString
  else
    match arg with
    | .str s => if verb = 'v' ∨ verb = 's' then s.data else badVerb verb arg
    | .int n => if verb = 'v' ∨ verb = 'd' then fmtDecimal n else badVerb verb arg

/-- The `missingArg` of package `fmt`: `%!verb(MISSING)`. -/
def missingArg (verb : Char) : List Char :=
  '%' :: '!' :: verb :: "(MISSING)".data

/-- The text `doPrintf` appends after the format is consumed: nothing when every operand
was used, otherwise `%!(EXTRA type=value, ...)` listing the unused ones. -/
def extraArgs : List GoValue → List Char
  | [] => []
  | x :: rest =>
    "%!(EXTRA ".data ++ (x.typeString ++ '=' :: x.plain)
      ++ (rest.flatMap fun y => ", ".data ++ (y.typeString ++ '=' :: y.plain)) ++ [')']

/-- The main loop of `fmt.(*pp).doPrintf` (Go standard library, `fmt/print.go`), on the
format as a list of code points and the operands not yet consumed.  Literal text is
copied; `%%` writes one `%`; `%` at the end of the format writes `%!(NOVERB)`; any other
`%c` reads `c` as the verb, consumes the next operand through `printArg`, or writes
`%!c(MISSING)` when no operand is left.  When the format ends the unused operands are
reported by `extraArgs`.

Scope of the model: the character after `%` is always read as the verb, so flags
(`#`, `0`, `+`, `-`, space), width, precision, `*` and explicit argument indexes `[n]` are
outside the model, as are the verbs `x X q` on strings and `b o O x X c q U` on integers. -/
def doPrintf : List Char → List GoValue → List Char
  | [], a => extraArgs a
  | c :: rest, a =>
    if c = '%' then
      match rest with
      | [] => "%!(NOVERB)".data ++ extraArgs a
      | verb :: rest' =>
        if verb = '%' then '%' :: doPrintf rest' a
        else
          match a with
          | [] => missingArg verb ++ doPrintf rest' []
          | x :: a' => printArg x verb ++ doPrintf rest' a'
    else c :: doPrintf rest a

/-- Go's `fmt.Sprintf(format, a...)`, through `doPrintf`. -/
def Sprintf (format : String) (a : List GoValue) : String :=
  String.mk (doPrintf format.data a)

/-- Method `func (t TextMessage) Bind(args ...any) TextMessage`:
```go
return TextMessage{
    Role:    t.Role,
    Content: fmt.Sprintf(t.Content, args...),
}
``` -/
def TextMessage.Bind (t : TextMessage) (args : List GoValue) : TextMessage :=
  { Role := t.Role, Content := Sprintf t.Content args }

/-! ## Predicates of the specification -/

/-- A returned `(Message, error)` pair is mutually exclusive: a non-nil error comes with a
nil Message, and a nil error comes with a non-nil Message. -/
def mutuallyExclusive (r : Option Message × Option GoError) : Prop :=
  (r.2 ≠ none → r.1 = none) ∧ (r.2 = none → r.1 ≠ none)

instance (r : Option Message × Option GoError) : Decidable (mutuallyExclusive r) := by
  unfold mutuallyExclusive
  infer_instance

/-- The step function `f` returns a mutually exclusive pair on every input. -/
def exclusiveStep {σ : Type} (f : Pipe σ) : Prop :=
  ∀ ctx bb s, mutuallyExclusive (f ctx bb s).1

/-- Pipes built from step functions that satisfy `P`: a single such step, or a chain of
two such pipes made with `Then`. -/
inductive BuiltFrom {σ : Type} (P : Pipe σ → Prop) : Pipe σ → Prop where
  | step (f : Pipe σ) : P f → BuiltFrom P f
  | chain (a b : Pipe σ) : BuiltFrom P a → BuiltFrom P b → BuiltFrom P (a.Then b)

/-- The step function `p` checks the context on entry: under a context whose `Err()` is
a non-nil `e` it returns `(nil, e)` and leaves the state as it found it. -/
def observesCancellation {σ : Type} (p : Pipe σ) : Prop :=
  ∀ ctx bb s e, ctx.Err = some e → p ctx bb s = ((none, some e), s)

/-! ## Templates, as the specification describes them -/

/-- A piece of a template: literal text, the verb `%s` or the verb `%d`. -/
inductive Piece where
  | lit (text : String)
  | verbS
  | verbD
  deriving DecidableEq, Repr

/-- The text of a piece inside a format string. -/
def Piece.format : Piece → List Char
  | .lit text => text.data
  | .verbS => ['%', 's']
  | .verbD => ['%', 'd']

/-- The format string made of the pieces, in order. -/
def template (ps : List Piece) : String :=
  String.mk (ps.flatMap Piece.format)

/-- Literal pieces are literal: none of them contains the character `%`. -/
def literalText : List Piece → Bool
  | [] => true
  | .lit text :: ps => !text.data.contains '%' && literalText ps
  | _ :: ps => literalText ps

/-- The argument list matches the verbs of the template in number and type: a string for
each `%s`, an integer for each `%d`, in order, and nothing left over. -/
def matching : List Piece → List GoValue → Bool
  | [], [] => true
  | .lit _ :: ps, a => matching ps a
  | .verbS :: ps, .str _ :: a => matching ps a
  | .verbD :: ps, .int _ :: a => matching ps a
  | _, _ => false

/-- The string representation of an argument: a string is itself, an integer is its
decimal numeral with a leading `-` when negative. -/
def GoValue.represent : GoValue → List Char
  | .str s => s.data
  | .int n => (toString n).data

/-- The substitution the specification describes: the literal text with the k-th verb
replaced by the string representation of the k-th argument. -/
def substitute : List Piece → List GoValue → List Char
  | [], _ => []
  | .lit text :: ps, a => text.data ++ substitute ps a
  | _ :: ps, x :: a => x.represent ++ substitute ps a
  | _ :: ps, [] => substitute ps []

/-- What `Bind` writes for a template of literal text, `%s` and `%d` whatever the
arguments are: a verb whose argument has the right type is replaced by the argument's
string representation, a verb whose argument has the other type by `%!verb(type=value)`,
a verb with no argument left by `%!verb(MISSING)`, and arguments left over when the
template ends are appended as `%!(EXTRA type=value, ...)`. -/
def fill : List Piece → List GoValue → List Char
  | [], a => extraArgs a
  | .lit text :: ps, a => text.data ++ fill ps a
  | .verbS :: ps, [] => "%!s(MISSING)".data ++ fill ps []
  | .verbD :: ps, [] => "%!d(MISSING)".data ++ fill ps []
  | .verbS :: ps, .str v :: a => v.data ++ fill ps a
  | .verbD :: ps, .int n :: a => (toString n).data ++ fill ps a
  | .verbS :: ps, .int n :: a => "%!s(int=".data ++ (toString n).data ++ [')'] ++ fill ps a
  | .verbD :: ps, .str v :: a => "%!d(string=".data ++ v.data ++ [')'] ++ fill ps a

/-! ## Chains of many stages -/

/-- The pipeline `first.Then(p2).Then(p3)...` built from a non-empty list of stages by
repeated application of `Then`, left to right. -/
def chain {σ : Type} (first : Pipe σ) (rest : List (Pipe σ)) : Pipe σ :=
  rest.foldl Pipe.Then first

/-- Feeding a message through stages in order while each of them succeeds: the message and
state after the last stage, or `none` as soon as a stage returns a non-nil error. -/
def feed {σ : Type} : List (Pipe σ) → Context → Option Message → σ → Option (Option Message × σ)
  | [], _, m, s => some (m, s)
  | p :: ps, ctx, m, s =>
    match p ctx m s with
    | ((m', none), s') => feed ps ctx m' s'
    | ((_, some _), _) => none

/-! ## From bytes back to text -/

/-- One step of the `string(bb)` conversion read as text: the first code point encoded at
the head of `bb` and the bytes after it.  The lead byte gives the length of the encoding;
the code point is accepted only when its UTF-8 encoding is exactly the bytes consumed, so
overlong forms, surrogates and stray continuation bytes give `none`. -/
def decodeChar : List UInt8 → Option (Char × List UInt8)
  | [] => none
  | b0 :: rest =>
    if b0.toNat < 0x80 then some (Char.ofNat b0.toNat, rest)
    else if b0.toNat < 0xc0 then none
    else if b0.toNat < 0xe0 then
      match rest with
      | b1 :: rest =>
        let c := Char.ofNat (b0.toNat % 32 * 64 + b1.toNat % 64)
        if String.utf8EncodeChar c = [b0, b1] then some (c, rest) else none
      | _ => none
    else if b0.toNat < 0xf0 then
      match rest with
      | b1 :: b2 :: rest =>
        let c := Char.ofNat (b0.toNat % 16 * 4096 + b1.toNat % 64 * 64 + b2.toNat % 64)
        if String.utf8EncodeChar c = [b0, b1, b2] then some (c, rest) else none
      | _ => none
    else
      match rest with
      | b1 :: b2 :: b3 :: rest =>
        let c := Char.ofNat
          (b0.toNat % 8 * 262144 + b1.toNat % 64 * 4096 + b2.toNat % 64 * 64 + b3.toNat % 64)
        if String.utf8EncodeChar c = [b0, b1, b2, b3] then some (c, rest) else none
      | _ => none

/-- Repeated `decodeChar` until the bytes are used up; `fuel` bounds the number of code
points and is never exhausted when it is at least the number of bytes. -/
def decodeText : Nat → List UInt8 → Option (List Char)
  | _, [] => some []
  | 0, _ :: _ => none
  | fuel + 1, b :: bb =>
    match decodeChar (b :: bb) with
    | none => none
    | some (c, rest) =>
      match decodeText fuel rest with
      | none => none
      | some cs => some (c :: cs)

/-- The `string(bb)` conversion of a byte slice: the text whose UTF-8 encoding is `bb`.  A Go
string can also hold bytes that are not valid UTF-8; such a string has no counterpart in
`String` and the result is `none`. -/
def bytesString (bb : List UInt8) : Option String :=
  match decodeText bb.length bb with
  | none => none
  | some cs => some (String.mk cs)

/-! ## Pipe configuration

The constructor `core.NewPipe`, the type `core.PipeConfig` and the setter `SetPrompt` are
used by `openai/speech_to_text.go` and `examples/translate_text/main.go` but are not declared
in `core/core.go`. -/

/-- Modelled from the spec: the type `PipeConfig`, which is missing from `core/core.go`: a
settings container with named, independently settable fields.  The callers read and write
one field, `Prompt`. -/
structure PipeConfig where
  Prompt : String
  deriving DecidableEq, Repr

/-- Modelled from the spec: the step function an adapter hands to the constructor, which is
missing from `core/core.go`, of shape `(context, Message, config-view) -> (Message, error)`,
with the state made explicit as for `Pipe`. -/
abbrev Step (σ : Type) : Type :=
  Context → Option Message → PipeConfig → σ → (Option Message × Option GoError) × σ

/-- Modelled from the spec: the pipe object behind a `*core.Pipe`, which is missing from
`core/core.go`: a step function together with the `PipeConfig` the pipe owns. -/
structure ConfiguredPipe (σ : Type) where
  config : PipeConfig
  step : Step σ

/-- Modelled from the spec: the store of pipe objects that `*core.Pipe` references point
into, missing from `core/core.go` as the pipe object is; a reference is an index. -/
abbrev PipeStore (σ : Type) : Type :=
  List (ConfiguredPipe σ)

/-- Modelled from the spec: the constructor `NewPipe`, which is missing from `core/core.go`:
it wraps a step function as a pipe and creates the configuration alongside it (with the
zero value of each field), returning the reference to the new pipe. -/
def NewPipe {σ : Type} (step : Step σ) (store : PipeStore σ) : Nat × PipeStore σ :=
  (store.length, store ++ [{ config := { Prompt := "" }, step := step }])

/-- Modelled from the spec: the setter `SetPrompt`, which is missing from `core/core.go`: it
writes the `Prompt` field of the configuration the pipe owns, without looking at the value,
and returns the same pipe reference. -/
def SetPrompt {σ : Type} (p : Nat) (v : String) (store : PipeStore σ) : Nat × PipeStore σ :=
  match store[p]? with
  | some o => (p, store.set p { o with config := { o.config with Prompt := v } })
  | none => (p, store)

/-- Modelled from the spec: `Execute` of a configured pipe, which is missing from
`core/core.go`: it invokes the step function with the configuration as it is at the time of
the call.  A reference that points to no pipe gives `none`. -/
def ExecuteConfigured {σ : Type} (p : Nat) (ctx : Context) (bb : Option Message)
    (store : PipeStore σ) (s : σ) : Option ((Option Message × Option GoError) × σ) :=
  match store[p]? with
  | some o => some (o.step ctx bb o.config s)
  | none => none

/-! ## Messages in memory

A finer view of the `Bytes` methods, in which a `[]byte` is a slice header that points into
memory, so that a call can be seen to allocate, to alias and to leave memory alone. -/

/-- A Go slice header for a `[]byte`: the address of the backing array, the offset of the
first element in it and the length. -/
structure Slice where
  addr : Nat
  off : Nat
  len : Nat
  deriving DecidableEq, Repr

/-- The memory holding the backing arrays of byte slices, found by address. -/
structure Heap where
  arrays : List (List UInt8)
  deriving DecidableEq, Repr

/-- The bytes a slice header denotes in a memory. -/
def Heap.read (h : Heap) (sl : Slice) : List UInt8 :=
  ((h.arrays.getD sl.addr []).drop sl.off).take sl.len

/-- Allocation of a fresh backing array filled with `bytes`, as the conversion `[]byte(s)`
does: the new slice and the memory after the allocation. -/
def Heap.alloc (h : Heap) (bytes : List UInt8) : Slice × Heap :=
  ({ addr := h.arrays.length, off := 0, len := bytes.length }, { arrays := h.arrays ++ [bytes] })

/-- The assignment `sl[i] = b` through a slice header; `none` is the index-out-of-range
panic. -/
def Heap.write (h : Heap) (sl : Slice) (i : Nat) (b : UInt8) : Option Heap :=
  if i < sl.len then
    some { arrays := h.arrays.set sl.addr ((h.arrays.getD sl.addr []).set (sl.off + i) b) }
  else none

/-- A message as it lies in memory: a TextMessage holds a role and an immutable string, an
ImageMessage or a SpeechMessage holds the slice header `bb`. -/
inductive StoredMessage where
  | text (t : TextMessage)
  | image (bb : Slice)
  | speech (bb : Slice)
  deriving DecidableEq, Repr

/-- The three `Bytes` methods on a message in memory: `return []byte(t.Content)` allocates
a new slice, `return i.bb` and `return s.bb` hand out the slice header held in the field.
The result is the returned slice and the memory after the call. -/
def StoredMessage.Bytes : StoredMessage → Heap → Slice × Heap
  | .text t, h => h.alloc (stringBytes t.Content)
  | .image bb, h => (bb, h)
  | .speech bb, h => (bb, h)

/-- The message value a stored message denotes in a memory. -/
def StoredMessage.value : StoredMessage → Heap → Message
  | .text t, _ => .text t
  | .image bb, h => .image { bb := h.read bb }
  | .speech bb, h => .speech { bb := h.read bb }

/-! ## Instrumented pipes

Wrappers that make the invocations of a step observable in the state. -/

/-- The pipe `p` with a call counter next to its state: each invocation adds `k`. -/
def counting {σ : Type} (k : Nat) (p : Pipe σ) : Pipe (σ × Nat) :=
  fun ctx bb st =>
    match p ctx bb st.1 with
    | (r, s') => (r, (s', st.2 + k))

/-- The pipe `p` with a log next to its state: each invocation appends its tag, the context
it received and the message it received. -/
def traced {σ : Type} (tag : Nat) (p : Pipe σ) :
    Pipe (σ × List (Nat × Context × Option Message)) :=
  fun ctx bb st =>
    match p ctx bb st.1 with
    | (r, s') => (r, (s', st.2 ++ [(tag, ctx, bb)]))

/-! ## Test doubles

Concrete step functions over a call counter (`σ = Nat`), used to run the engine on
explicit inputs. -/

/-- A step that fails with `e` and, like a careless adapter, still returns its input
message next to the error.  It does not touch the counter. -/
def failWith (e : GoError) : Pipe Nat :=
  fun _ bb s => ((bb, some e), s)

/-- A step that succeeds, hands its input on unchanged and counts the call. -/
def countCall : Pipe Nat :=
  fun _ bb s => ((bb, none), s + 1)

/-- A step that counts the call and returns `(nil, nil)`. -/
def returnNothing : Pipe Nat :=
  fun _ _ s => ((none, none), s + 1)

/-- A step that counts the call and returns both a message and the error `e`. -/
def returnBoth (e : GoError) : Pipe Nat :=
  fun _ bb s => ((bb, some e), s + 1)

/-- A step that succeeds with the fixed message `out` and counts the call. -/
def produce (out : Message) : Pipe Nat :=
  fun _ _ s => ((some out, none), s + 1)

/-- A test adapter that asserts the context state on entry: when `ctx.Err()` is non-nil it
returns that error without running `p`, otherwise it runs `p`. -/
def checkContext {σ : Type} (p : Pipe σ) : Pipe σ :=
  fun ctx bb s =>
    match ctx.Err with
    | some e => ((none, some e), s)
    | none => p ctx bb s

/-- A step that behaves as `p` under the context `c` and as `q` under every other one. -/
def atContext {σ : Type} (c : Context) (p q : Pipe σ) : Pipe σ :=
  fun ctx bb s => if ctx = c then p ctx bb s else q ctx bb s

/-- A live context. -/
def background : Context := { ident := 0, Err := none }

/-- A context that is already cancelled. -/
def cancelled : Context := { ident := 1, Err := some GoError.canceled }

/-- The message `user:"hi"`. -/
def hi : Message := .text (NewUserMessage "hi")

/-- Upper-casing of the ASCII letters of a text, character by character. -/
def upper (text : String) : String :=
  String.mk (text.data.map Char.toUpper)

/-- The step of the end-to-end scenario that upper-cases a text message and answers in the
assistant role; it rejects anything that is not a text message. -/
def upperStep {σ : Type} : Pipe σ :=
  fun _ bb s =>
    match bb with
    | some (.text t) => ((some (.text { Role := AssistantRole, Content := upper t.Content }), none), s)
    | _ => ((none, some (GoError.other "not a text message")), s)

/-- The step of the end-to-end scenario that appends `!` to the content of a text message,
keeping its role; it rejects anything that is not a text message. -/
def exclaimStep {σ : Type} : Pipe σ :=
  fun _ bb s =>
    match bb with
    | some (.text t) => ((some (.text { Role := t.Role, Content := t.Content ++ "!" }), none), s)
    | _ => ((none, some (GoError.other "not a text message")), s)

/-- The identity pipe: its step returns the input message with a nil error. -/
def identityPipe {σ : Type} : Pipe σ :=
  fun _ bb s => ((bb, none), s)

end Agency

/-! ## Theorems -/

namespace Agency

/-- C1. If the step function of `A` returns a non-nil error `e` on `(ctx, m)`, then
`A.Then(B).Execute(ctx, m)` returns the nil Message together with exactly `e`, whatever
Message `A` returned next to `e`. -/
theorem Then_first_error_verbatim {σ : Type} (A B : Pipe σ) (ctx : Context)
    (m : Option Message) (s : σ) (e : GoError) (hA : (A ctx m s).1.2 = some e) :
    ((A.Then B).Execute ctx m s).1 = (none, some e) := by
  unfold Pipe.Execute Pipe.Then
  rcases hr : A ctx m s with ⟨⟨bb, err⟩, s1⟩
  rw [hr] at hA
  simp only at hA
  subst hA
  rfl

/-- Witness for C1: the first stage fails with `canceled` next to a non-nil message; the
chain returns `(nil, canceled)`. -/
theorem Then_first_error_verbatim_witness :
    ((failWith GoError.canceled) background (some hi) 0).1 = (some hi, some GoError.canceled) ∧
      (((failWith GoError.canceled).Then countCall).Execute background (some hi) 0).1
        = (none, some GoError.canceled) :=
  ⟨rfl, Then_first_error_verbatim (failWith GoError.canceled) countCall background (some hi) 0
    GoError.canceled rfl⟩

/-- C2. If `A` fails on `(ctx, m)`, the second stage is never invoked: for every two pipes
`B` and `B'` the chains `A.Then(B)` and `A.Then(B')` return the same result and leave the
same state, which is the state `A` left; and when every call of `B` increments a counter
that `A` does not touch, the counter is unchanged after the chain runs. -/
theorem Then_short_circuit_skips_next {σ : Type} (A B B' : Pipe σ) (ctx : Context)
    (m : Option Message) (s : σ) (e : GoError) (n : Nat)
    (hA : (A ctx m s).1.2 = some e) :
    (A.Then B).Execute ctx m s = (A.Then B').Execute ctx m s ∧
      ((A.Then B).Execute ctx m s).2 = (A ctx m s).2 ∧
      (((counting 0 A).Then (counting 1 B)).Execute ctx m (s, n)).2.2 = n := by
  unfold Pipe.Execute Pipe.Then counting
  rcases hr : A ctx m s with ⟨⟨bb, err⟩, s1⟩
  rw [hr] at hA
  simp only at hA
  subst hA
  exact ⟨rfl, rfl, rfl⟩

/-- Witness for C2: the first stage fails, the second stage is one that returns a message
or one that returns nothing, and the counter of calls of the second stage still reads `0`
after the chain. -/
theorem Then_short_circuit_skips_next_witness :
    ((failWith (GoError.other "boom")).Then countCall).Execute background (some hi) 0
        = ((failWith (GoError.other "boom")).Then returnNothing).Execute background (some hi) 0 ∧
      (((failWith (GoError.other "boom")).Then countCall).Execute background (some hi) 0).2
        = ((failWith (GoError.other "boom")) background (some hi) 0).2 ∧
      (((counting 0 (failWith (GoError.other "boom"))).Then (counting 1 countCall)).Execute
          background (some hi) (0, 0)).2.2 = 0 :=
  Then_short_circuit_skips_next (failWith (GoError.other "boom")) countCall returnNothing
    background (some hi) 0 (GoError.other "boom") 0 rfl

/-- C3. If the step function of `A` returns `(m', nil)` on `(ctx, m)`, then
`A.Then(B).Execute(ctx, m)` returns exactly what `B.Execute(ctx, m')` returns, run in the
state `A` left: the same Message and the same error. -/
theorem Then_success_feeds_next {σ : Type} (A B : Pipe σ) (ctx : Context)
    (m m' : Option Message) (s s' : σ) (hA : A ctx m s = ((m', none), s')) :
    (A.Then B).Execute ctx m s = B.Execute ctx m' s' := by
  unfold Pipe.Execute Pipe.Then
  rw [hA]

/-- Witness for C3: a stage that produces `user:"hi"` followed by a stage that returns both
a message and an error; the chain returns that stage's pair unchanged. -/
theorem Then_success_feeds_next_witness :
    ((produce hi).Then (returnBoth GoError.deadlineExceeded)).Execute background none 0
      = (returnBoth GoError.deadlineExceeded).Execute background (some hi) 1 :=
  Then_success_feeds_next (produce hi) (returnBoth GoError.deadlineExceeded) background none
    (some hi) 0 1 rfl

/-- C4. Composition with `Then` is associative: `(A.Then(B)).Then(C)` and
`A.Then(B.Then(C))` return identical results (Message, error and final state) on every
context, message and state. -/
theorem Then_assoc {σ : Type} (A B C : Pipe σ) (ctx : Context) (m : Option Message) (s : σ) :
    ((A.Then B).Then C).Execute ctx m s = (A.Then (B.Then C)).Execute ctx m s := by
  unfold Pipe.Execute Pipe.Then
  rcases A ctx m s with ⟨⟨bb, _ | e⟩, s1⟩ <;> rfl

/-- C5. `p.Execute(ctx, m)` returns exactly what the step function of `p` returns on
`(ctx, m)`, and leaves the state the step function left: it is a plain function call. -/
theorem Execute_is_call {σ : Type} (p : Pipe σ) (ctx : Context) (m : Option Message) (s : σ) :
    p.Execute ctx m s = p ctx m s := by
  rfl

/-- Counterexample for C6, single step: a step that returns `(nil, nil)` makes `Execute`
return both absent, and a step that returns a message next to an error makes `Execute`
return both populated; a chain ending in such a step does the same. -/
theorem Execute_not_always_exclusive :
    (returnNothing.Execute background (some hi) 0).1 = (none, none) ∧
      ¬ mutuallyExclusive (returnNothing.Execute background (some hi) 0).1 ∧
      ((countCall.Then (returnBoth GoError.canceled)).Execute background (some hi) 0).1
        = (some hi, some GoError.canceled) ∧
      ¬ mutuallyExclusive
        ((countCall.Then (returnBoth GoError.canceled)).Execute background (some hi) 0).1 := by
  decide

/-- A chain is mutually exclusive on an input as soon as its second stage is, whatever the
first stage returns. -/
theorem exclusive_Then {σ : Type} (a b : Pipe σ) (hb : exclusiveStep b) :
    exclusiveStep (a.Then b) := by
  intro ctx bb s
  unfold Pipe.Then
  rcases a ctx bb s with ⟨⟨bb1, _ | e⟩, s1⟩
  · exact hb ctx bb1 s1
  · exact ⟨fun _ => rfl, fun h => by cases h⟩

/-- C6, amended. For every pipe built from step functions that return a mutually exclusive
pair on every input (a single such step, or a chain of them built with `Then`), the result
of `Execute` is mutually exclusive on every context, message and state. -/
theorem Execute_exclusive_of_steps {σ : Type} (p : Pipe σ)
    (hp : BuiltFrom exclusiveStep p) (ctx : Context) (m : Option Message) (s : σ) :
    mutuallyExclusive (p.Execute ctx m s).1 := by
  have h : exclusiveStep p := by
    induction hp with
    | step f hf => exact hf
    | chain a b _ _ _ ihb => exact exclusive_Then a b ihb
  exact h ctx m s

/-- Witness for C6: a chain of a step that always succeeds with a message and a step that
returns the context error alone when there is one and a message alone otherwise. -/
theorem Execute_exclusive_of_steps_witness :
    mutuallyExclusive
      (((produce hi).Then (checkContext (produce hi))).Execute cancelled none 0).1 :=
  Execute_exclusive_of_steps ((produce hi).Then (checkContext (produce hi)))
    (BuiltFrom.chain _ _
      (BuiltFrom.step _ (fun _ _ _ => ⟨fun h => absurd rfl h, fun _ h => by cases h⟩))
      (BuiltFrom.step _ (fun ctx _ _ => by
        unfold checkContext
        cases ctx.Err with
        | none => exact ⟨fun h => absurd rfl h, fun _ h => by cases h⟩
        | some e => exact ⟨fun _ => rfl, fun h => by cases h⟩)))
    cancelled none 0

/-- Counterexample for C7: under a context that is already cancelled, `Execute` runs a step
that does not look at the context; the call is counted, the message comes back and the
error is nil. -/
theorem Execute_runs_step_when_cancelled :
    cancelled.Err = some GoError.canceled ∧
      countCall.Execute cancelled (some hi) 0 = ((some hi, none), 1) ∧
      (countCall.Then countCall).Execute cancelled (some hi) 0 = ((some hi, none), 2) := by
  decide

/-- C7, amended. If the context is already cancelled (`ctx.Err()` is a non-nil `e`) and the
step function of `p` checks the context on entry, then `p.Execute(ctx, m)` returns
`(nil, e)` with the state untouched, and so does every chain `p.Then(next)`: no later stage
is invoked. -/
theorem Execute_cancelled_of_checking_step {σ : Type} (p next : Pipe σ) (ctx : Context)
    (m : Option Message) (s : σ) (e : GoError) (hctx : ctx.Err = some e)
    (hp : observesCancellation p) :
    p.Execute ctx m s = ((none, some e), s) ∧
      (p.Then next).Execute ctx m s = ((none, some e), s) := by
  have h := hp ctx m s e hctx
  unfold Pipe.Execute Pipe.Then
  rw [h]
  exact ⟨rfl, rfl⟩

/-- Witness for C7: the test adapter that checks the context, run under the cancelled
context, alone and followed by a counting stage. -/
theorem Execute_cancelled_of_checking_step_witness :
    (checkContext countCall).Execute cancelled (some hi) 0 = ((none, some GoError.canceled), 0) ∧
      ((checkContext countCall).Then countCall).Execute cancelled (some hi) 0
        = ((none, some GoError.canceled), 0) :=
  Execute_cancelled_of_checking_step (checkContext countCall) countCall cancelled (some hi) 0
    GoError.canceled rfl (fun ctx bb s e h => by unfold checkContext; rw [h])

/-- C8. The context is threaded unchanged through a chain.  With every invocation logged,
executing `A.Then(B)` with `ctx` invokes `A` with that same `ctx` and the input message and,
when `A` succeeds, then invokes `B` with that same `ctx` and the message `A` produced, and
nothing else; the logging changes neither the result nor the state.  Equivalently, the
result of `A.Then(B).Execute(ctx, m)` depends on `A` and `B` only through their behaviour at
`ctx`: pipes that agree with them at `ctx` give the same result, whatever they do under
other contexts. -/
theorem Then_threads_context {σ : Type} (A A' B B' : Pipe σ) (ctx : Context)
    (m : Option Message) (s : σ) (log : List (Nat × Context × Option Message))
    (hA : ∀ bb t, A' ctx bb t = A ctx bb t) (hB : ∀ bb t, B' ctx bb t = B ctx bb t) :
    (((traced 1 A).Then (traced 2 B)).Execute ctx m (s, log)).2.2
        = (if (A ctx m s).1.2 = none then log ++ [(1, ctx, m), (2, ctx, (A ctx m s).1.1)]
            else log ++ [(1, ctx, m)]) ∧
      (((traced 1 A).Then (traced 2 B)).Execute ctx m (s, log)).1
        = ((A.Then B).Execute ctx m s).1 ∧
      (((traced 1 A).Then (traced 2 B)).Execute ctx m (s, log)).2.1
        = ((A.Then B).Execute ctx m s).2 ∧
      (A'.Then B').Execute ctx m s = (A.Then B).Execute ctx m s := by
  unfold Pipe.Execute Pipe.Then traced
  simp only [hA m s]
  rcases A ctx m s with ⟨⟨bb, _ | e⟩, s1⟩
  · simp [hB bb s1]
  · simp

/-- Witness for C8: a counting stage followed by a producing stage under `background`; both
are invoked with `background`, in order, and replacing them by pipes that agree with them
under `background` and fail or return nothing under every other context changes nothing. -/
theorem Then_threads_context_witness :
    (((traced 1 countCall).Then (traced 2 (produce hi))).Execute background none (0, [])).2.2
        = (if (countCall background none 0).1.2 = none
            then [] ++ [(1, background, none), (2, background, (countCall background none 0).1.1)]
            else [] ++ [(1, background, none)]) ∧
      (((traced 1 countCall).Then (traced 2 (produce hi))).Execute background none (0, [])).1
        = ((countCall.Then (produce hi)).Execute background none 0).1 ∧
      (((traced 1 countCall).Then (traced 2 (produce hi))).Execute background none (0, [])).2.1
        = ((countCall.Then (produce hi)).Execute background none 0).2 ∧
      ((atContext background countCall (failWith GoError.canceled)).Then
          (atContext background (produce hi) returnNothing)).Execute background none 0
        = (countCall.Then (produce hi)).Execute background none 0 :=
  Then_threads_context countCall (atContext background countCall (failWith GoError.canceled))
    (produce hi) (atContext background (produce hi) returnNothing) background none 0 []
    (fun _ _ => rfl) (fun _ _ => rfl)

/-- C9. For every TextMessage `t` and every argument list, matching or not, `t.Bind(args...)`
is a TextMessage whose Role is `t.Role`.  `Bind` has a value receiver and builds a fresh
struct, so `t` is the same value before and after the call. -/
theorem Bind_preserves_role (t : TextMessage) (args : List GoValue) :
    (t.Bind args).Role = t.Role := by
  rfl

/-- A character other than `%` is copied by `doPrintf`. -/
theorem doPrintf_cons_literal (c : Char) (rest : List Char) (a : List GoValue) (hc : c ≠ '%') :
    doPrintf (c :: rest) a = c :: doPrintf rest a := by
  rw [doPrintf.eq_def]
  simp [hc]

/-- A verb other than `%` consumes the next operand. -/
theorem doPrintf_cons_verb (verb : Char) (rest : List Char) (x : GoValue) (a : List GoValue)
    (hv : verb ≠ '%') :
    doPrintf ('%' :: verb :: rest) (x :: a) = printArg x verb ++ doPrintf rest a := by
  rw [doPrintf.eq_def]
  simp [hv]

/-- Literal text without `%` is copied by `doPrintf`. -/
theorem doPrintf_literal (text rest : List Char) (a : List GoValue)
    (h : text.contains '%' = false) : doPrintf (text ++ rest) a = text ++ doPrintf rest a := by
  induction text with
  | nil => rfl
  | cons c cs ih =>
    have hc : c ≠ '%' := by
      intro hc
      simp [hc] at h
    have hcs : cs.contains '%' = false := by
      simp at h ⊢
      exact h.2
    rw [List.cons_append, doPrintf_cons_literal _ _ _ hc, ih hcs, List.cons_append]

/-- The decimal text `fmt` writes for an integer is the one `toString` gives. -/
theorem fmtDecimal_eq (n : Int) : fmtDecimal n = (toString n).data := by
  cases n <;> rfl

/-- On a template of literal text, `%s` and `%d` with matching arguments, `doPrintf`
computes the substitution. -/
theorem doPrintf_template (ps : List Piece) :
    ∀ a : List GoValue, literalText ps = true → matching ps a = true →
      doPrintf (ps.flatMap Piece.format) a = substitute ps a := by
  induction ps with
  | nil =>
    intro a _ hm
    cases a with
    | nil => rfl
    | cons x a => simp [matching] at hm
  | cons p ps ih =>
    intro a hl hm
    cases p with
    | lit text =>
      simp only [literalText, Bool.and_eq_true, Bool.not_eq_true_eq_eq_false] at hl
      simp only [matching] at hm
      simp only [List.flatMap_cons, Piece.format, substitute]
      rw [doPrintf_literal _ _ _ hl.1, ih a hl.2 hm]
    | verbS =>
      cases a with
      | nil => simp [matching] at hm
      | cons x a =>
        cases x with
        | int n => simp [matching] at hm
        | str v =>
          simp only [literalText] at hl
          simp only [matching] at hm
          simp only [List.flatMap_cons, Piece.format, substitute, GoValue.represent]
          have hv : printArg (.str v) 's' = v.data := by simp [printArg]
          rw [List.cons_append, List.cons_append, List.nil_append,
            doPrintf_cons_verb _ _ _ _ (by decide), hv, ih a hl hm]
    | verbD =>
      cases a with
      | nil => simp [matching] at hm
      | cons x a =>
        cases x with
        | str v => simp [matching] at hm
        | int n =>
          simp only [literalText] at hl
          simp only [matching] at hm
          simp only [List.flatMap_cons, Piece.format, substitute, GoValue.represent]
          have hv : printArg (.int n) 'd' = (toString n).data := by
            simp [printArg, fmtDecimal_eq]
          rw [List.cons_append, List.cons_append, List.nil_append,
            doPrintf_cons_verb _ _ _ _ (by decide), hv, ih a hl hm]

/-- C10. For content made of literal text and `%s` / `%d` verbs, bound with a matching list
of string / integer arguments, `Bind` produces the message with the same Role whose content
is the literal text with the k-th verb replaced by the string representation of the k-th
argument. -/
theorem Bind_substitutes (r : Role) (ps : List Piece) (args : List GoValue)
    (hl : literalText ps = true) (hm : matching ps args = true) :
    (TextMessage.mk r (template ps)).Bind args = TextMessage.mk r (String.mk (substitute ps args)) := by
  unfold TextMessage.Bind Sprintf template
  simp only [doPrintf_template ps args hl hm]

/-- Witness for C10: content `"Hello %s, you are %d"` bound with `("Ana", 5)` gives content
`"Hello Ana, you are 5"`. -/
theorem Bind_substitutes_witness :
    (TextMessage.mk UserRole "Hello %s, you are %d").Bind [.str "Ana", .int 5]
      = TextMessage.mk UserRole "Hello Ana, you are 5" :=
  Bind_substitutes UserRole [.lit "Hello ", .verbS, .lit ", you are ", .verbD]
    [.str "Ana", .int 5] rfl rfl

/-- Counterexample for C11: content `"Hello %s, you are %d"` bound with the single argument
`"Ana"` gives no error; `Bind` returns a TextMessage whose content carries the report
`%!d(MISSING)` in place of the second verb. -/
theorem Bind_mismatch_returns_message :
    (TextMessage.mk UserRole "Hello %s, you are %d").Bind [.str "Ana"]
      = TextMessage.mk UserRole "Hello Ana, you are %!d(MISSING)" := by
  decide

/-- On a template of literal text, `%s` and `%d`, `doPrintf` computes `fill` for every
argument list. -/
theorem doPrintf_fill (ps : List Piece) :
    ∀ a : List GoValue, literalText ps = true →
      doPrintf (ps.flatMap Piece.format) a = fill ps a := by
  induction ps with
  | nil =>
    intro a _
    rfl
  | cons p ps ih =>
    intro a hl
    cases p with
    | lit text =>
      simp only [literalText, Bool.and_eq_true, Bool.not_eq_true_eq_eq_false] at hl
      simp only [List.flatMap_cons, Piece.format, fill]
      rw [doPrintf_literal _ _ _ hl.1, ih a hl.2]
    | verbS =>
      simp only [literalText] at hl
      simp only [List.flatMap_cons, Piece.format]
      rw [List.cons_append, List.cons_append, List.nil_append]
      cases a with
      | nil =>
        rw [doPrintf.eq_def]
        simp [fill, missingArg, ih [] hl]
      | cons x a =>
        rw [doPrintf_cons_verb _ _ _ _ (by decide), ih a hl]
        cases x with
        | str v => simp [fill, printArg]
        | int n => simp [fill, printArg, badVerb, GoValue.typeString, GoValue.plain, fmtDecimal_eq]
    | verbD =>
      simp only [literalText] at hl
      simp only [List.flatMap_cons, Piece.format]
      rw [List.cons_append, List.cons_append, List.nil_append]
      cases a with
      | nil =>
        rw [doPrintf.eq_def]
        simp [fill, missingArg, ih [] hl]
      | cons x a =>
        rw [doPrintf_cons_verb _ _ _ _ (by decide), ih a hl]
        cases x with
        | str v => simp [fill, printArg, badVerb, GoValue.typeString, GoValue.plain]
        | int n => simp [fill, printArg, fmtDecimal_eq]

/-- C11, amended. For content made of literal text and `%s` / `%d` verbs and every argument
list, matching or not, `Bind` returns a TextMessage with the same Role and reports a
mismatch inside the content: `%!verb(MISSING)` for a verb without argument,
`%!verb(type=value)` for an argument of the other type, `%!(EXTRA ...)` for arguments left
over.  No error is returned and nothing is cut off. -/
theorem Bind_reports_mismatch_in_content (r : Role) (ps : List Piece) (args : List GoValue)
    (hl : literalText ps = true) :
    (TextMessage.mk r (template ps)).Bind args = TextMessage.mk r (String.mk (fill ps args)) := by
  unfold TextMessage.Bind Sprintf template
  simp only [doPrintf_fill ps args hl]

/-- Witness for C11: content `"Hello %s, you are %d"` bound with the single argument `7`, an
integer where a string is expected and nothing for the second verb. -/
theorem Bind_reports_mismatch_in_content_witness :
    (TextMessage.mk SystemRole "Hello %s, you are %d").Bind [.int 7]
      = TextMessage.mk SystemRole "Hello %!s(int=7), you are %!d(MISSING)" :=
  Bind_reports_mismatch_in_content SystemRole [.lit "Hello ", .verbS, .lit ", you are ", .verbD]
    [.int 7] rfl

/-- C12. End-to-end chain: the upper-casing step alone maps `user:"hi"` to `assistant:"HI"`
with no error, followed by the step that appends `!` it gives `assistant:"HI!"`, and for
every input text the chain returns the assistant message with the upper-cased text followed
by `!`, with a nil error. -/
theorem uppercase_then_exclaim {σ : Type} (ctx : Context) (r : Role) (text : String) (s : σ) :
    upperStep.Execute ctx (some hi) s
        = ((some (.text (TextMessage.mk AssistantRole "HI")), none), s) ∧
      (upperStep.Then exclaimStep).Execute ctx (some hi) s
        = ((some (.text (TextMessage.mk AssistantRole "HI!")), none), s) ∧
      (upperStep.Then exclaimStep).Execute ctx (some (.text (TextMessage.mk r text))) s
        = ((some (.text (TextMessage.mk AssistantRole (upper text ++ "!"))), none), s) := by
  refine ⟨?_, ?_, rfl⟩
  · show ((some (Message.text (TextMessage.mk AssistantRole (upper "hi"))), none), s) = _
    have h : upper "hi" = "HI" := by decide
    rw [h]
  · show ((some (Message.text (TextMessage.mk AssistantRole (upper "hi" ++ "!"))), none), s) = _
    have h : upper "hi" ++ "!" = "HI!" := by decide
    rw [h]

/-- C13. `NewUserMessage(c)` is the TextMessage with Role `"user"` and Content `c`,
`NewSystemMessage(c)` the one with Role `"system"` and Content `c`, and `Bytes()` of either
is the byte sequence of `c`. -/
theorem NewUserMessage_NewSystemMessage (c : String) :
    NewUserMessage c = TextMessage.mk (Role.mk "user") c ∧
      NewSystemMessage c = TextMessage.mk (Role.mk "system") c ∧
      (NewUserMessage c).Bytes = stringBytes c ∧
      (NewSystemMessage c).Bytes = stringBytes c :=
  ⟨rfl, rfl, rfl, rfl⟩

/-- C15. Binary payloads round-trip through their message variant: `Bytes()` of
`NewImageMessage(bb)` and of `NewSpeechMessage(bb)` is `bb`, byte for byte and with the same
length, also when called through the `Message` interface and for the empty sequence. -/
theorem binary_payload_roundtrip (bb : List UInt8) :
    (NewImageMessage bb).Bytes = bb ∧ (NewSpeechMessage bb).Bytes = bb ∧
      (Message.image (NewImageMessage bb)).Bytes = bb ∧
      (Message.speech (NewSpeechMessage bb)).Bytes = bb ∧
      (NewImageMessage bb).Bytes.length = bb.length ∧
      (NewSpeechMessage bb).Bytes.length = bb.length ∧
      (NewImageMessage []).Bytes = [] ∧ (NewSpeechMessage []).Bytes = [] :=
  ⟨rfl, rfl, rfl, rfl, rfl, rfl, rfl, rfl⟩

/-- Reading the slice that an allocation returned gives the bytes allocated. -/
theorem read_alloc (h : Heap) (bytes : List UInt8) :
    (h.alloc bytes).2.read (h.alloc bytes).1 = bytes := by
  simp [Heap.alloc, Heap.read, List.getD_eq_getElem?_getD]

/-- An allocation leaves every slice of an array that already exists as it was. -/
theorem read_after_alloc (h : Heap) (bytes : List UInt8) (sl : Slice)
    (hsl : sl.addr < h.arrays.length) : (h.alloc bytes).2.read sl = h.read sl := by
  simp [Heap.alloc, Heap.read, List.getD_eq_getElem?_getD, List.getElem?_append_left hsl]

/-- C16. For every message of the three variants, in every memory, `Bytes()` is total and
deterministic: the call returns a slice holding the bytes of the message (the encoding of
the content for a text message, the stored payload for an image or speech message), a
second call on the same message returns an identical byte sequence and leaves the bytes of
the first result as they were, the message has the same value after either call, and no
array that existed before the call is changed by it. -/
theorem Bytes_total_deterministic (m : StoredMessage) (h : Heap) :
    (m.Bytes h).2.read (m.Bytes h).1 = (m.value h).Bytes ∧
      (m.Bytes (m.Bytes h).2).2.read (m.Bytes (m.Bytes h).2).1
        = (m.Bytes h).2.read (m.Bytes h).1 ∧
      (m.Bytes (m.Bytes h).2).2.read (m.Bytes h).1 = (m.Bytes h).2.read (m.Bytes h).1 ∧
      m.value (m.Bytes h).2 = m.value h ∧
      m.value (m.Bytes (m.Bytes h).2).2 = m.value h ∧
      (∀ sl : Slice, sl.addr < h.arrays.length → (m.Bytes h).2.read sl = h.read sl) := by
  cases m with
  | text t =>
    refine ⟨?_, ?_, ?_, rfl, rfl, ?_⟩
    · exact read_alloc h (stringBytes t.Content)
    · show ((h.alloc _).2.alloc _).2.read ((h.alloc _).2.alloc _).1 = (h.alloc _).2.read (h.alloc _).1
      rw [read_alloc, read_alloc]
    · show ((h.alloc _).2.alloc _).2.read (h.alloc _).1 = (h.alloc _).2.read (h.alloc _).1
      exact read_after_alloc _ _ _ (by simp [Heap.alloc])
    · intro sl hsl
      exact read_after_alloc h _ sl hsl
  | image bb => exact ⟨rfl, rfl, rfl, rfl, rfl, fun _ _ => rfl⟩
  | speech bb => exact ⟨rfl, rfl, rfl, rfl, rfl, fun _ _ => rfl⟩

/-- The slice `Bytes()` returns for an image message is the one the message holds: a write
through it by the caller is seen by the next call. -/
theorem Bytes_aliases_payload :
    ((StoredMessage.image ⟨0, 0, 3⟩).Bytes ⟨[[1, 2, 3]]⟩).1 = ⟨0, 0, 3⟩ ∧
      (Heap.mk [[1, 2, 3]]).write ⟨0, 0, 3⟩ 0 9 = some ⟨[[9, 2, 3]]⟩ ∧
      ((StoredMessage.image ⟨0, 0, 3⟩).value ⟨[[9, 2, 3]]⟩).Bytes = [9, 2, 3] := by
  decide

/-- Counterexample for C19: a stage that returns a message next to its error, followed by
the identity pipe, returns the nil Message, while the stage alone returns the message. -/
theorem Then_identity_drops_message :
    ((failWith GoError.canceled).Then identityPipe).Execute background (some hi) 0
        = ((none, some GoError.canceled), 0) ∧
      (failWith GoError.canceled).Execute background (some hi) 0
        = ((some hi, some GoError.canceled), 0) ∧
      ((failWith GoError.canceled).Then identityPipe).Execute background (some hi) 0
        ≠ (failWith GoError.canceled).Execute background (some hi) 0 := by
  decide

/-- C19, amended. The identity pipe is a left unit of `Then` for every pipe, on every
input; it is a right unit exactly on the inputs on which the pipe returns no Message next
to a non-nil error. -/
theorem identity_unit_of_Then {σ : Type} (p : Pipe σ) (ctx : Context) (m : Option Message)
    (s : σ) :
    (identityPipe.Then p).Execute ctx m s = p.Execute ctx m s ∧
      ((p.Then identityPipe).Execute ctx m s = p.Execute ctx m s ↔
        ((p ctx m s).1.2 ≠ none → (p ctx m s).1.1 = none)) := by
  refine ⟨rfl, ?_⟩
  unfold Pipe.Execute Pipe.Then
  rcases p ctx m s with ⟨⟨bb, _ | e⟩, s1⟩
  · simp [identityPipe]
  · constructor
    · intro h _
      simp only [Prod.mk.injEq] at h
      exact h.1.1.symm
    · intro h
      have hbb : bb = none := h (by simp)
      simp [hbb]

/-- Witness for C19: the left unit at a stage that returns a message next to its error, and
the right unit at a stage that fails under a cancelled context without a message. -/
theorem identity_unit_of_Then_witness :
    (identityPipe.Then (failWith GoError.canceled)).Execute background (some hi) 0
        = (failWith GoError.canceled).Execute background (some hi) 0 ∧
      ((checkContext countCall).Then identityPipe).Execute cancelled (some hi) 0
        = (checkContext countCall).Execute cancelled (some hi) 0 :=
  ⟨(identity_unit_of_Then (failWith GoError.canceled) background (some hi) 0).1,
    (identity_unit_of_Then (checkContext countCall) cancelled (some hi) 0).2.mpr (fun _ => rfl)⟩

/-- C20. `Bind` with no arguments is the identity on templates without directive: for every
TextMessage whose Content contains no `%`, `t.Bind()` equals `t`. -/
theorem Bind_no_args_identity (t : TextMessage) (h : '%' ∉ t.Content.data) :
    t.Bind [] = t := by
  have hc : t.Content.data.contains '%' = false := by
    simpa using h
  have hd : doPrintf t.Content.data [] = t.Content.data := by
    have := doPrintf_literal t.Content.data [] [] hc
    simpa [doPrintf, extraArgs] using this
  unfold TextMessage.Bind Sprintf
  rw [hd]

/-- Witness for C20: the user message `"I love programming."` bound with no arguments. -/
theorem Bind_no_args_identity_witness :
    (NewUserMessage "I love programming.").Bind [] = NewUserMessage "I love programming." :=
  Bind_no_args_identity (NewUserMessage "I love programming.") (by decide)

/-- The two bracketings of three stages are the same pipe. -/
theorem Then_assoc_eq {σ : Type} (A B C : Pipe σ) : (A.Then B).Then C = A.Then (B.Then C) := by
  funext ctx m s
  unfold Pipe.Then
  rcases A ctx m s with ⟨⟨bb, _ | e⟩, s1⟩ <;> rfl

/-- A chain that starts with `p.Then(q)` is `p` followed by the chain that starts with `q`. -/
theorem chain_cons {σ : Type} (rest : List (Pipe σ)) :
    ∀ p q : Pipe σ, chain p (q :: rest) = p.Then (chain q rest) := by
  induction rest with
  | nil => intro p q; rfl
  | cons r rest ih =>
    intro p q
    have h1 : chain p (q :: r :: rest) = chain (p.Then q) (r :: rest) := rfl
    rw [h1, ih (p.Then q) r, Then_assoc_eq, ← ih q r]

/-- A chain whose first stages succeed continues as the chain of the remaining stages, on the
message and state those stages produced. -/
theorem chain_after_prefix {σ : Type} (pre : List (Pipe σ)) :
    ∀ (first : Pipe σ) (rest post : List (Pipe σ)) (Pk : Pipe σ) (ctx : Context)
      (m mk : Option Message) (s sk : σ),
      first :: rest = pre ++ Pk :: post → feed pre ctx m s = some (mk, sk) →
      chain first rest ctx m s = chain Pk post ctx mk sk := by
  induction pre with
  | nil =>
    intro first rest post Pk ctx m mk s sk hsplit hfeed
    simp only [List.nil_append, List.cons.injEq] at hsplit
    simp only [feed, Option.some.injEq, Prod.mk.injEq] at hfeed
    rw [hsplit.1, hsplit.2, hfeed.1, hfeed.2]
  | cons p pre ih =>
    intro first rest post Pk ctx m mk s sk hsplit hfeed
    simp only [List.cons_append, List.cons.injEq] at hsplit
    obtain ⟨hfirst, hrest⟩ := hsplit
    subst hfirst
    have hne : ∃ q rest', q :: rest' = pre ++ Pk :: post := by
      cases pre with
      | nil => exact ⟨Pk, post, rfl⟩
      | cons q pre => exact ⟨q, pre ++ Pk :: post, rfl⟩
    obtain ⟨q, rest', hq⟩ := hne
    rw [hrest, ← hq, chain_cons]
    unfold feed at hfeed
    unfold Pipe.Then
    rcases hr : first ctx m s with ⟨⟨m1, _ | e⟩, s1⟩
    · rw [hr] at hfeed
      exact ih q rest' post Pk ctx m1 mk s1 sk hq hfeed
    · rw [hr] at hfeed
      cases hfeed

/-- A chain whose first stage fails and that has later stages returns the nil Message, the
error of the first stage and the state the first stage left. -/
theorem chain_fails_at_head {σ : Type} (Pk q : Pipe σ) (post : List (Pipe σ)) (ctx : Context)
    (m : Option Message) (s : σ) (e : GoError) (h : (Pk ctx m s).1.2 = some e) :
    chain Pk (q :: post) ctx m s = ((none, some e), (Pk ctx m s).2) := by
  rw [chain_cons]
  unfold Pipe.Then
  rcases hr : Pk ctx m s with ⟨⟨m1, err⟩, s1⟩
  rw [hr] at h
  simp only at h
  subst h
  rfl

/-- C18. For every non-empty list of stages `first :: rest` chained left to right by
repeated `Then`, split as `pre ++ Pk :: post` where the stages `pre` succeed on the
messages passed along and hand `mk` to `Pk`: if `Pk` returns the error `e`, the chain
returns exactly the error `e`, leaves the state `Pk` left, and returns the same result
whatever the stages after `Pk` are; and if `Pk` is the last stage, the chain returns what
`Pk` returns for `mk`. -/
theorem chain_first_failure_or_last_output {σ : Type} (first : Pipe σ)
    (rest pre post : List (Pipe σ)) (Pk : Pipe σ) (ctx : Context) (m mk : Option Message)
    (s sk : σ) (hsplit : first :: rest = pre ++ Pk :: post)
    (hpre : feed pre ctx m s = some (mk, sk)) :
    (∀ e : GoError, (Pk ctx mk sk).1.2 = some e →
      ((chain first rest).Execute ctx m s).1.2 = some e ∧
      ((chain first rest).Execute ctx m s).2 = (Pk ctx mk sk).2 ∧
      ∀ (first' : Pipe σ) (rest' post' : List (Pipe σ)),
        post'.length = post.length → first' :: rest' = pre ++ Pk :: post' →
        (chain first' rest').Execute ctx m s = (chain first rest).Execute ctx m s) ∧
    (post = [] → (chain first rest).Execute ctx m s = Pk.Execute ctx mk sk) := by
  have hrun : chain first rest ctx m s = chain Pk post ctx mk sk :=
    chain_after_prefix pre first rest post Pk ctx m mk s sk hsplit hpre
  unfold Pipe.Execute
  refine ⟨?_, ?_⟩
  · intro e he
    cases post with
    | nil =>
      refine ⟨?_, ?_, ?_⟩
      · rw [hrun]; exact he
      · rw [hrun]; rfl
      · intro first' rest' post' hlen hsplit'
        have hnil : post' = [] := List.length_eq_zero.mp hlen
        subst hnil
        rw [hrun, chain_after_prefix pre first' rest' [] Pk ctx m mk s sk hsplit' hpre]
    | cons q post =>
      have hfail := chain_fails_at_head Pk q post ctx mk sk e he
      refine ⟨?_, ?_, ?_⟩
      · rw [hrun, hfail]
      · rw [hrun, hfail]
      · intro first' rest' post' hlen hsplit'
        cases post' with
        | nil => simp at hlen
        | cons q' post' =>
          rw [hrun, hfail,
            chain_after_prefix pre first' rest' (q' :: post') Pk ctx m mk s sk hsplit' hpre,
            chain_fails_at_head Pk q' post' ctx mk sk e he]
  · intro hpost
    subst hpost
    rw [hrun]
    rfl

/-- Witness for C18: three stages, the second one fails after the first one counted its
call; the third one never runs. -/
theorem chain_first_failure_or_last_output_witness :
    (∀ e : GoError, ((failWith GoError.deadlineExceeded) background (some hi) 1).1.2 = some e →
      ((chain countCall [failWith GoError.deadlineExceeded, countCall]).Execute
          background (some hi) 0).1.2 = some e ∧
      ((chain countCall [failWith GoError.deadlineExceeded, countCall]).Execute
          background (some hi) 0).2 = ((failWith GoError.deadlineExceeded) background (some hi) 1).2 ∧
      ∀ (first' : Pipe Nat) (rest' post' : List (Pipe Nat)),
        post'.length = [countCall].length →
        first' :: rest' = [countCall] ++ failWith GoError.deadlineExceeded :: post' →
        (chain first' rest').Execute background (some hi) 0
          = (chain countCall [failWith GoError.deadlineExceeded, countCall]).Execute
              background (some hi) 0) ∧
    ([countCall] = [] →
      (chain countCall [failWith GoError.deadlineExceeded, countCall]).Execute
          background (some hi) 0
        = (failWith GoError.deadlineExceeded).Execute background (some hi) 1) :=
  chain_first_failure_or_last_output countCall [failWith GoError.deadlineExceeded, countCall]
    [countCall] [countCall] (failWith GoError.deadlineExceeded) background (some hi) (some hi)
    0 1 rfl rfl

/-- Shifting a 32-bit value right by 6 divides it by 64. -/
theorem shr6 (v : UInt32) : (v >>> 6).toNat = v.toNat / 64 := by
  show (UInt32.shiftRight v 6).toNat = _
  have h : (UInt32.mod 6 32).toBitVec.toNat = 6 := by decide
  simp [UInt32.shiftRight, UInt32.toNat, Nat.shiftRight_eq_div_pow, h]
/-- Shifting a 32-bit value right by 12 divides it by 4096. -/
theorem shr12 (v : UInt32) : (v >>> 12).toNat = v.toNat / 4096 := by
  show (UInt32.shiftRight v 12).toNat = _
  have h : (UInt32.mod 12 32).toBitVec.toNat = 12 := by decide
  simp [UInt32.shiftRight, UInt32.toNat, Nat.shiftRight_eq_div_pow, h]
/-- Shifting a 32-bit value right by 18 divides it by 262144. -/
theorem shr18 (v : UInt32) : (v >>> 18).toNat = v.toNat / 262144 := by
  show (UInt32.shiftRight v 18).toNat = _
  have h : (UInt32.mod 18 32).toBitVec.toNat = 18 := by decide
  simp [UInt32.shiftRight, UInt32.toNat, Nat.shiftRight_eq_div_pow, h]

/-- Truncation to a byte keeps the value modulo 256. -/
theorem toUInt8_toNat (v : UInt32) : v.toUInt8.toNat = v.toNat % 256 := by
  simp [UInt32.toUInt8, Nat.toUInt8, UInt8.ofNat]

/-- The value of a bitwise or of bytes. -/
theorem or_toNat8 (x y : UInt8) : UInt8.toNat (x ||| y) = x.toNat ||| y.toNat := by
  exact BitVec.toNat_or x.toBitVec y.toBitVec

/-- The value of a continuation byte. -/
theorem tag_cont (x : UInt32) : (x.toUInt8 &&& 0x3f ||| 0x80).toNat = x.toNat % 64 + 128 := by
  rw [or_toNat8, UInt8.and_toNat, toUInt8_toNat]
  have h1 : (0x3f : UInt8).toNat = 2 ^ 6 - 1 := by decide
  have h2 : (0x80 : UInt8).toNat = 128 := by decide
  rw [h1, h2, Nat.and_pow_two_sub_one_eq_mod]
  have h3 : ∀ a < 64, a ||| 128 = a + 128 := by decide
  rw [h3 _ (Nat.mod_lt _ (by decide))]
  omega

/-- The value of the lead byte of a two-byte encoding. -/
theorem tag_lead2 (x : UInt32) : (x.toUInt8 &&& 0x1f ||| 0xc0).toNat = x.toNat % 32 + 192 := by
  rw [or_toNat8, UInt8.and_toNat, toUInt8_toNat]
  have h1 : (0x1f : UInt8).toNat = 2 ^ 5 - 1 := by decide
  have h2 : (0xc0 : UInt8).toNat = 192 := by decide
  rw [h1, h2, Nat.and_pow_two_sub_one_eq_mod]
  have h3 : ∀ a < 32, a ||| 192 = a + 192 := by decide
  rw [h3 _ (Nat.mod_lt _ (by decide))]
  omega

/-- The value of the lead byte of a three-byte encoding. -/
theorem tag_lead3 (x : UInt32) : (x.toUInt8 &&& 0x0f ||| 0xe0).toNat = x.toNat % 16 + 224 := by
  rw [or_toNat8, UInt8.and_toNat, toUInt8_toNat]
  have h1 : (0x0f : UInt8).toNat = 2 ^ 4 - 1 := by decide
  have h2 : (0xe0 : UInt8).toNat = 224 := by decide
  rw [h1, h2, Nat.and_pow_two_sub_one_eq_mod]
  have h3 : ∀ a < 16, a ||| 224 = a + 224 := by decide
  rw [h3 _ (Nat.mod_lt _ (by decide))]
  omega

/-- The value of the lead byte of a four-byte encoding. -/
theorem tag_lead4 (x : UInt32) : (x.toUInt8 &&& 0x07 ||| 0xf0).toNat = x.toNat % 8 + 240 := by
  rw [or_toNat8, UInt8.and_toNat, toUInt8_toNat]
  have h1 : (0x07 : UInt8).toNat = 2 ^ 3 - 1 := by decide
  have h2 : (0xf0 : UInt8).toNat = 240 := by decide
  rw [h1, h2, Nat.and_pow_two_sub_one_eq_mod]
  have h3 : ∀ a < 8, a ||| 240 = a + 240 := by decide
  rw [h3 _ (Nat.mod_lt _ (by decide))]
  omega


/-- Comparison of 32-bit values is comparison of their values. -/
theorem le_toNat (v w : UInt32) : v ≤ w ↔ v.toNat ≤ w.toNat := by
  rw [UInt32.le_def, BitVec.le_def]
  rfl

/-- Decoding the encoding of a code point gives the code point back and leaves the rest. -/
theorem decodeChar_encode (c : Char) (rest : List UInt8) :
    decodeChar (String.utf8EncodeChar c ++ rest) = some (c, rest) := by
  have hc : Char.ofNat c.val.toNat = c := Char.ofNat_toNat c
  have hlt : c.val.toNat < 0x110000 := by
    have hv := c.valid
    rcases hv with h | ⟨_, h⟩
    · exact Nat.lt_trans h (by decide)
    · exact h
  by_cases h1 : c.val ≤ 0x7f
  · have henc : String.utf8EncodeChar c = [c.val.toUInt8] := by
      simp [String.utf8EncodeChar, h1]
    have n1 : c.val.toNat ≤ 0x7f := (le_toNat _ _).mp h1
    have hb : c.val.toUInt8.toNat = c.val.toNat := by
      rw [toUInt8_toNat]; omega
    rw [henc]
    show decodeChar (c.val.toUInt8 :: rest) = _
    simp only [decodeChar, hb]
    rw [if_pos (by omega), hc]
  · by_cases h2 : c.val ≤ 0x7ff
    · have henc : String.utf8EncodeChar c
          = [(c.val >>> 6).toUInt8 &&& 0x1f ||| 0xc0, c.val.toUInt8 &&& 0x3f ||| 0x80] := by
        simp [String.utf8EncodeChar, h1, h2]
      have n1 : ¬ c.val.toNat ≤ 0x7f := fun h => h1 ((le_toNat _ _).mpr h)
      have n2 : c.val.toNat ≤ 0x7ff := (le_toNat _ _).mp h2
      have hcand : Char.ofNat ((c.val.toNat / 64 % 32 + 192) % 32 * 64
          + (c.val.toNat % 64 + 128) % 64) = c := by
        have : (c.val.toNat / 64 % 32 + 192) % 32 * 64 + (c.val.toNat % 64 + 128) % 64
            = c.val.toNat := by omega
        rw [this, hc]
      rw [henc]
      show decodeChar (_ :: _ :: rest) = _
      simp only [decodeChar, tag_lead2, tag_cont, shr6]
      rw [if_neg (by omega), if_neg (by omega), if_pos (by omega)]
      simp only [hcand, henc, if_true]
    · have n1 : ¬ c.val.toNat ≤ 0x7f := fun h => h1 ((le_toNat _ _).mpr h)
      have n2 : ¬ c.val.toNat ≤ 0x7ff := fun h => h2 ((le_toNat _ _).mpr h)
      by_cases h3 : c.val ≤ 0xffff
      · have henc : String.utf8EncodeChar c
            = [(c.val >>> 12).toUInt8 &&& 0x0f ||| 0xe0, (c.val >>> 6).toUInt8 &&& 0x3f ||| 0x80,
                c.val.toUInt8 &&& 0x3f ||| 0x80] := by
          simp [String.utf8EncodeChar, h1, h2, h3]
        have n3 : c.val.toNat ≤ 0xffff := (le_toNat _ _).mp h3
        have hcand : Char.ofNat ((c.val.toNat / 4096 % 16 + 224) % 16 * 4096
            + (c.val.toNat / 64 % 64 + 128) % 64 * 64 + (c.val.toNat % 64 + 128) % 64) = c := by
          have : (c.val.toNat / 4096 % 16 + 224) % 16 * 4096
              + (c.val.toNat / 64 % 64 + 128) % 64 * 64 + (c.val.toNat % 64 + 128) % 64
              = c.val.toNat := by omega
          rw [this, hc]
        rw [henc]
        show decodeChar (_ :: _ :: _ :: rest) = _
        simp only [decodeChar, tag_lead3, tag_cont, shr6, shr12]
        rw [if_neg (by omega), if_neg (by omega), if_neg (by omega), if_pos (by omega)]
        simp only [hcand, henc, if_true]
      · have henc : String.utf8EncodeChar c
            = [(c.val >>> 18).toUInt8 &&& 0x07 ||| 0xf0, (c.val >>> 12).toUInt8 &&& 0x3f ||| 0x80,
                (c.val >>> 6).toUInt8 &&& 0x3f ||| 0x80, c.val.toUInt8 &&& 0x3f ||| 0x80] := by
          simp [String.utf8EncodeChar, h1, h2, h3]
        have n3 : ¬ c.val.toNat ≤ 0xffff := fun h => h3 ((le_toNat _ _).mpr h)
        have hcand : Char.ofNat ((c.val.toNat / 262144 % 8 + 240) % 8 * 262144
            + (c.val.toNat / 4096 % 64 + 128) % 64 * 4096
            + (c.val.toNat / 64 % 64 + 128) % 64 * 64 + (c.val.toNat % 64 + 128) % 64) = c := by
          have : (c.val.toNat / 262144 % 8 + 240) % 8 * 262144
              + (c.val.toNat / 4096 % 64 + 128) % 64 * 4096
              + (c.val.toNat / 64 % 64 + 128) % 64 * 64 + (c.val.toNat % 64 + 128) % 64
              = c.val.toNat := by omega
          rw [this, hc]
        rw [henc]
        show decodeChar (_ :: _ :: _ :: _ :: rest) = _
        simp only [decodeChar, tag_lead4, tag_cont, shr6, shr12, shr18]
        rw [if_neg (by omega), if_neg (by omega), if_neg (by omega), if_neg (by omega)]
        simp only [hcand, henc, if_true]

/-- Decoding the encoding of a text gives the text back, with enough fuel. -/
theorem decodeText_encode (cs : List Char) :
    ∀ fuel : Nat, cs.length ≤ fuel →
      decodeText fuel (cs.flatMap String.utf8EncodeChar) = some cs := by
  induction cs with
  | nil => intro fuel _; cases fuel <;> rfl
  | cons c cs ih =>
    intro fuel hfuel
    cases fuel with
    | zero => simp at hfuel
    | succ fuel =>
      have hlen : 0 < (String.utf8EncodeChar c).length := by
        rw [String.length_utf8EncodeChar]; exact Char.utf8Size_pos c
      rw [List.flatMap_cons]
      rcases henc : String.utf8EncodeChar c with _ | ⟨b, bs⟩
      · rw [henc] at hlen; simp at hlen
      · have hd := decodeChar_encode c (cs.flatMap String.utf8EncodeChar)
        rw [henc] at hd
        show decodeText (fuel + 1) (b :: (bs ++ _)) = _
        simp only [decodeText]
        rw [List.cons_append] at hd
        rw [hd]
        simp only [ih fuel (by simpa using hfuel)]

/-- A text has at most as many code points as its encoding has bytes. -/
theorem length_le_stringBytes (cs : List Char) :
    cs.length ≤ (cs.flatMap String.utf8EncodeChar).length := by
  induction cs with
  | nil => simp
  | cons c cs ih =>
    have hlen : 0 < (String.utf8EncodeChar c).length := by
      rw [String.length_utf8EncodeChar]; exact Char.utf8Size_pos c
    simp only [List.flatMap_cons, List.length_append, List.length_cons]
    omega

/-- The conversion to bytes followed by the conversion back is the identity on text. -/
theorem bytesString_roundtrip (s : String) :
    bytesString (stringBytes s) = some s := by
  unfold bytesString stringBytes
  rw [decodeText_encode s.data _ (length_le_stringBytes s.data)]

/-- C14. For every TextMessage `t`, converting `t.Bytes()` back to a string gives exactly
`t.Content`, for every Role and also for the empty content; a text message with the same
content and another role has the same bytes. -/
theorem Bytes_roundtrip_content (t : TextMessage) (r : Role) :
    bytesString t.Bytes = some t.Content ∧
      (TextMessage.mk r t.Content).Bytes = t.Bytes ∧
      (TextMessage.mk r "").Bytes = [] ∧
      bytesString (TextMessage.mk r "").Bytes = some "" :=
  ⟨bytesString_roundtrip t.Content, rfl, rfl, bytesString_roundtrip ""⟩

/-- C17. Configuration fluency: for every pipe built by the constructor and every prompt
value `v`, `SetPrompt(v)` returns the reference of that same pipe, and a subsequent
`Execute` calls the step function with a configuration whose `Prompt` is `v`; no value of
`v` is rejected. -/
theorem SetPrompt_fluent {σ : Type} (step : Step σ) (store : PipeStore σ) (v : String)
    (ctx : Context) (m : Option Message) (s : σ) :
    (SetPrompt (NewPipe step store).1 v (NewPipe step store).2).1 = (NewPipe step store).1 ∧
      ∃ cfg : PipeConfig, cfg.Prompt = v ∧
        ExecuteConfigured (NewPipe step store).1 ctx m
            (SetPrompt (NewPipe step store).1 v (NewPipe step store).2).2 s
          = some (step ctx m cfg s) := by
  have hget : (store ++ [({ config := { Prompt := "" }, step := step } : ConfiguredPipe σ)])[store.length]?
      = some { config := { Prompt := "" }, step := step } := by
    simp
  refine ⟨?_, ⟨{ Prompt := v }, rfl, ?_⟩⟩
  · simp only [NewPipe, SetPrompt, hget]
  · simp only [NewPipe, SetPrompt, hget, ExecuteConfigured]
    simp

end Agency
